import Mathlib

/-!
Shallow embedding of the VoyageCraft travel-agent repository
(`streamlit_app.py`, `server/app/planner.py`, `server/app/tools.py`,
`server/app/llm.py`) together with proofs settling the frozen claims.

Network calls (the OpenAI planning request and the Wikipedia summary
lookup) are modelled as oracles: `wiki : String → String` for
`wiki_summary` (which catches every exception internally and always
returns a string) and `oracle : Nat → String → List Item → Option Day`
for `plan_one_day` (which returns a parsed day object or `None`).
Python dictionaries holding POI fields are modelled as structures with
`Option`-valued fields, `None`/missing-key both mapping to `none`; the
few places where Python subscripts a key that every reachable call site
guarantees to be present (names of items that passed `_dedupe_by_name`)
are modelled with `Option.getD`.
-/

deriving instance DecidableEq for Except

namespace VoyageCraft

/-! ### Python string primitives (ASCII range, as used by the repo) -/

/-- The whitespace class matched by Python's `str.strip` and the regex
`\s` for the ASCII range. -/
def pySpace (c : Char) : Bool :=
  c = ' ' || c = '\t' || c = '\n' || c = '\r' || c = Char.ofNat 11 || c = Char.ofNat 12

/-- ASCII lowering, modelling Python's `str.lower` on the strings this
repository manipulates. -/
def lowerChar (c : Char) : Char :=
  if 'A' ≤ c ∧ c ≤ 'Z' then Char.ofNat (c.toNat + 32) else c

def pyLower (s : String) : String := ⟨s.data.map lowerChar⟩

/-- `str.strip()`: drop leading and trailing whitespace. -/
def pyStripList (l : List Char) : List Char :=
  ((l.dropWhile pySpace).reverse.dropWhile pySpace).reverse

/-- One pass of `re.sub(r"\s+", " ", ·)`: every maximal whitespace run
becomes a single space.  The boolean records whether the previous
character was part of a whitespace run. -/
def collapseGo : Bool → List Char → List Char
  | _, [] => []
  | prevSpace, c :: rest =>
    if pySpace c then
      if prevSpace then collapseGo true rest
      else ' ' :: collapseGo true rest
    else c :: collapseGo false rest

/-- The dedup key of `_dedupe_by_name`:
`name = (it.get("name") or "").strip()`; `key = re.sub(r"\s+", " ", name).lower()`. -/
def normKey (n : Option String) : String :=
  ⟨(collapseGo false (pyStripList (n.getD "").data)).map lowerChar⟩

/-! ### POI items and pools (streamlit_app.py data model) -/

/-- A POI dictionary as flowing through `streamlit_app.py`:
`{name, lat, lon, category, start?, end?, blurb?}`.  A `none` field is a
missing (or `None`) key.  Latitude/longitude are carried opaquely by the
orchestration code (never computed on), so they are embedded as exact
rationals to keep every orchestration value decidable. -/
structure Item where
  name : Option String
  lat : Option ℚ
  lon : Option ℚ
  category : Option String
  start : Option String
  end_ : Option String
  blurb : Option String
deriving DecidableEq

/-- A blank item; concrete test items override the relevant fields. -/
def mkItem (n : Option String) (c : Option String) : Item :=
  { name := n, lat := none, lon := none, category := c,
    start := none, end_ := none, blurb := none }

/-- Per-interest candidate pools: the `pools_by_interest` dict. -/
def Pools := List (String × List Item)
deriving instance DecidableEq for Pools

def getPool (ps : Pools) (k : String) : List Item :=
  match List.find? (fun kv => kv.1 == k) ps with
  | some kv => kv.2
  | none => []

def setPool (ps : Pools) (k : String) (v : List Item) : Pools :=
  List.map (fun kv => if kv.1 == k then (k, v) else kv) ps

/-- `_dedupe_by_name`, inner loop: `seen` is the set of keys already kept. -/
def dedupeGo (seen : List String) : List Item → List Item
  | [] => []
  | it :: rest =>
    let key := normKey it.name
    if key ≠ "" ∧ key ∉ seen then it :: dedupeGo (key :: seen) rest
    else dedupeGo seen rest

/-- `_dedupe_by_name(items)`: first-seen-wins dedup by normalized name;
items whose key is empty are dropped. -/
def _dedupe_by_name (items : List Item) : List Item := dedupeGo [] items

/-- `CHAIN_WORDS` (a Python set literal; the duplicated `"7-eleven"`
entry collapses). -/
def CHAIN_WORDS : List String :=
  ["starbucks", "mcdonald", "kfc", "burger king", "dunkin", "subway",
   "7-eleven", "7 11", "pizza hut"]

def listStartsWith : List Char → List Char → Bool
  | [], _ => true
  | _ :: _, [] => false
  | a :: as, b :: bs => a = b && listStartsWith as bs

/-- Python's substring test `w in s` (contiguous occurrence). -/
def containsSub (s w : List Char) : Bool :=
  match s with
  | [] => w.isEmpty
  | _ :: rest => listStartsWith w s || containsSub rest w

/-- `_filter_chains(items, keep_at_least)`.  Python reads `i["name"]`
directly; every call site in the repo first passes the list through
`_dedupe_by_name`, which guarantees the key, so the total model uses
`getD ""`. -/
def _filter_chains (items : List Item) (keep_at_least : Nat) : List Item :=
  let non_chains := items.filter
    (fun i => CHAIN_WORDS.all (fun w => ¬ containsSub (pyLower (i.name.getD "")).data w.data))
  if keep_at_least ≤ non_chains.length then non_chains else items

/-- Python truthy `x or "sight"` on an optional string: `None` and `""`
fall through to the default. -/
def pyOr (o : Option String) (d : String) : String :=
  match o with
  | none => d
  | some s => if s = "" then d else s

/-- `(it.get("category") or "sight").lower()`. -/
def catKey (it : Item) : String := pyLower (pyOr it.category "sight")

/-- The distinct categories of a day's items (a Python `set`; only
membership and size are ever used). -/
def catSet (items : List Item) : List String := (items.map catKey).dedup

/-! ### Day objects and the Day Assembler (`enforce_daily_mix`) -/

/-- A day object `{date, items}`. -/
structure Day where
  date : String
  items : List Item
deriving DecidableEq

/-- `_fill_blurb(item)`: fetch a summary only when the blurb is falsy
(absent, `None`, or the empty string). -/
def _fill_blurb (wiki : String → String) (it : Item) : Item :=
  if it.blurb.getD "" = "" then { it with blurb := some (wiki (it.name.getD "")) } else it

/-- The `ValueError` raised by the line
`cand["start"], cand["end"] = "11:00","13:00" if i=="food" else "09:00","11:00"`
in `enforce_daily_mix`: the conditional expression binds tighter than the
commas, so the right-hand side is the 3-tuple
`("11:00", ("13:00" if i=="food" else "09:00"), "11:00")` unpacked into
two targets. -/
def unpackErr : String := "ValueError: too many values to unpack (expected 2)"

/-- The `for i in interests:` loop of the diversity-repair step.  For
each interest, `if pool:` pops an item and immediately hits the broken
tuple assignment above, so any interest with a non-empty pool raises;
an empty pool falls through to the `if len(cats) >= wanted: break`
check (the category set cannot have grown without a pop). -/
def diversityPull (pools : Pools) (ncats : Nat) : List String → Except String Unit
  | [] => .ok ()
  | i :: rest =>
    if getPool pools i ≠ [] then .error unpackErr
    else if 2 ≤ ncats then .ok ()
    else diversityPull pools ncats rest

/-- Step 2 of `enforce_daily_mix`: when fewer than 2 distinct categories
are present, run the interest loop (which can only raise or leave the
state unchanged), then top up with one generic sight slotted
14:00–16:00.  Returns the possibly extended items together with the
remaining sights pool. -/
def edmDiversity (wiki : String → String) (interests : List String) (pools : Pools)
    (cats : List String) (items : List Item) (sights_pool : List Item) :
    Except String (List Item × List Item) :=
  if cats.length < 2 then
    match diversityPull pools cats.length interests with
    | .error e => .error e
    | .ok _ =>
      if cats.length < 2 then
        match sights_pool with
        | s :: tl =>
          .ok (items ++ [{ s with
                           start := some "14:00"
                           end_ := some "16:00"
                           blurb := some (wiki (s.name.getD "")) }], tl)
        | [] => .ok (items, sights_pool)
      else .ok (items, sights_pool)
  else .ok (items, sights_pool)

/-- The per-item food-slot normalization at the end of the food step:
`it["start"], it["end"] = ("11:00","13:00") if it.get("start")=="09:00"
else (it.get("start","11:00"), it.get("end","13:00"))`. -/
def normFoodSlot (it : Item) : Item :=
  if it.category = some "food" then
    if it.start = some "09:00" then { it with start := some "11:00", end_ := some "13:00" }
    else { it with start := some (it.start.getD "11:00"), end_ := some (it.end_.getD "13:00") }
  else it

/-- Step 3 of `enforce_daily_mix`: when "food" was requested, ensure
exactly one food item (pull one slotted 11:00–13:00 if none, demote
extras if several), then normalize every food item's slot. -/
def edmFood (wiki : String → String) (interests : List String)
    (items : List Item) (pools : Pools) : List Item × Pools :=
  if (interests.map pyLower).contains "food" then
    let foods := items.filter (fun it => it.category.getD "" == "food")
    let step :=
      if foods.length = 0 ∧ getPool pools "food" ≠ [] then
        match getPool pools "food" with
        | f :: tl =>
          (items ++ [{ f with
                       start := some "11:00"
                       end_ := some "13:00"
                       blurb := some (wiki (f.name.getD "")) }],
           setPool pools "food" tl)
        | [] => (items, pools)
      else if 1 < foods.length then
        (items.filter (fun it => ¬ it.category.getD "" == "food") ++ foods.take 1, pools)
      else (items, pools)
    (step.1.map normFoodSlot, step.2)
  else (items, pools)

/-- `enforce_daily_mix(day_obj, interests, pools_by_interest, sights_pool)`.
Deduplicate, repair diversity (may raise `ValueError`, see `unpackErr`),
repair food placement, cap at 4 items, fill blurbs.  Pools are mutated in
place in Python, so the updated pools and sights pool are returned. -/
def enforce_daily_mix (wiki : String → String) (day_obj : Day) (interests : List String)
    (pools : Pools) (sights_pool : List Item) :
    Except String (Day × Pools × List Item) :=
  let items0 := _dedupe_by_name day_obj.items
  let cats := catSet items0
  match edmDiversity wiki interests pools cats items0 sights_pool with
  | .error e => .error e
  | .ok st =>
    let food := edmFood wiki interests st.1 pools
    let items3 := (food.1.take 4).map (_fill_blurb wiki)
    .ok ({ day_obj with items := items3 }, food.2, st.2)

/-! ### Coverage Enforcer (`enforce_global_coverage`) -/

/-- The slot assigned to an item injected for a missing interest:
`("11:00","13:00") if miss=="food" else ("14:00","16:00")`, plus the
blurb fetch. -/
def slotCov (wiki : String → String) (miss : String) (it : Item) : Item :=
  if miss = "food" then
    { it with start := some "11:00", end_ := some "13:00", blurb := some (wiki (it.name.getD "")) }
  else
    { it with start := some "14:00", end_ := some "16:00", blurb := some (wiki (it.name.getD "")) }

/-- `for d in days: if len(d.get("items",[])) < 4: ...; break` — append
into the first day with spare capacity; `none` when every day is full. -/
def injectFirst (it : Item) : List Day → Option (List Day)
  | [] => none
  | d :: rest =>
    if d.items.length < 4 then some ({ d with items := d.items ++ [it] } :: rest)
    else (injectFirst it rest).map (fun tl => d :: tl)

/-- The `for miss in missing:` loop.  The pool is only popped when a day
with capacity exists (the pop sits inside the day loop in the source). -/
def coverGo (wiki : String → String) : List String → List Day → Pools → List Day × Pools
  | [], days, pools => (days, pools)
  | miss :: rest, days, pools =>
    match getPool pools miss with
    | [] => coverGo wiki rest days pools
    | it :: tl =>
      match injectFirst (slotCov wiki miss it) days with
      | some days2 => coverGo wiki rest days2 (setPool pools miss tl)
      | none => coverGo wiki rest days pools

/-- `enforce_global_coverage(days, interests, pools_by_interest, sights_pool)`.
The `sights_pool` argument is accepted but never used in the source. -/
def enforce_global_coverage (wiki : String → String) (days : List Day)
    (interests : List String) (pools : Pools) (_sights_pool : List Item) :
    List Day × Pools :=
  let haveCats := days.foldl (fun acc d => acc ++ catSet d.items) []
  let missing := interests.filter (fun i => ¬ haveCats.contains i)
  if missing = [] then (days, pools)
  else coverGo wiki missing days pools

/-! ### Orchestrator (`build_plan`) -/

structure Totals where
  cost_low : Nat
  cost_high : Nat
deriving DecidableEq

structure Plan where
  days : List Day
  totals : Totals
deriving DecidableEq

/-- The slot given to a fallback-pulled interest item:
`("11:00","13:00") if it=="food" else ("09:00","11:00")`, plus the blurb
fetch. -/
def fbSlot (wiki : String → String) (it : String) (x : Item) : Item :=
  if it = "food" then
    { x with start := some "11:00", end_ := some "13:00", blurb := some (wiki (x.name.getD "")) }
  else
    { x with start := some "09:00", end_ := some "11:00", blurb := some (wiki (x.name.getD "")) }

/-- Fallback assembly, first half: `for it in interests[:2]`, pop one
POI per interest when available, slotted via `fbSlot`. -/
def fallbackInterests (wiki : String → String) :
    List String → List Item → Pools → List Item × Pools
  | [], items, pools => (items, pools)
  | it :: rest, items, pools =>
    match getPool pools it with
    | [] => fallbackInterests wiki rest items pools
    | x :: tl =>
      fallbackInterests wiki rest (items ++ [fbSlot wiki it x]) (setPool pools it tl)

/-- Fallback assembly, second half: `for slot in [("14:00","16:00"),
("16:00","18:00")]`, stop at 4 items, pop generic sights. -/
def fallbackSights (wiki : String → String) :
    List (String × String) → List Item → List Item → List Item × List Item
  | [], items, sights => (items, sights)
  | slot :: restSlots, items, sights =>
    if 4 ≤ items.length then (items, sights)
    else
      match sights with
      | [] => fallbackSights wiki restSlots items sights
      | s :: tl =>
        fallbackSights wiki restSlots
          (items ++ [{ s with
                       start := some slot.1
                       end_ := some slot.2
                       blurb := some (wiki (s.name.getD "")) }]) tl

/-- The bounded candidate slice built per day: up to 6 POIs per
requested interest plus up to 10 sights, deduplicated, capped at 18. -/
def candSlice (interests : List String) (pools : Pools) (sights : List Item) : List Item :=
  let cand0 := interests.foldl (fun acc it => acc ++ (getPool pools it).take 6) []
  (_dedupe_by_name (cand0 ++ sights.take 10)).take 18

/-- The per-date loop of `build_plan`.  `oracle i d cand` stands for the
`plan_one_day` network call for the `i`-th date (the pacing sleep and
debug messages have no effect on the returned plan and are omitted). -/
def buildLoop (wiki : String → String) (oracle : Nat → String → List Item → Option Day)
    (interests : List String) :
    List String → Nat → List Day → Pools → List Item →
    Except String (List Day × Pools × List Item)
  | [], _, days_out, pools, sights => .ok (days_out, pools, sights)
  | d :: rest, i, days_out, pools, sights =>
    match oracle i d (candSlice interests pools sights) with
    | some obj =>
      match enforce_daily_mix wiki obj interests pools sights with
      | .error e => .error e
      | .ok st =>
        buildLoop wiki oracle interests rest (i + 1)
          (days_out ++ [{ date := st.1.date, items := st.1.items }]) st.2.1 st.2.2
    | none =>
      let fb1 := fallbackInterests wiki (interests.take 2) [] pools
      let fb2 := fallbackSights wiki [("14:00", "16:00"), ("16:00", "18:00")] fb1.1 sights
      buildLoop wiki oracle interests rest (i + 1)
        (days_out ++ [{ date := d, items := fb2.1 }]) fb1.2 fb2.2

/-- The pools as prepared at the top of `build_plan`: per-interest dedup
then chain filtering with `keep_at_least=10`. -/
def initialPools (by_interest : Pools) : Pools :=
  (by_interest.map (fun kv => (kv.1, _dedupe_by_name kv.2))).map
    (fun kv => (kv.1, _filter_chains kv.2 10))

/-- The sights pool as prepared at the top of `build_plan`: drop food,
dedup, cap at 60. -/
def initialSights (wiki_sights : List Item) : List Item :=
  (_dedupe_by_name (wiki_sights.filter (fun p => pyOr p.category "sight" != "food"))).take 60

/-- `build_plan(city, dates, interests, wiki_sights, by_interest)`:
build pools, loop over dates (planner success → day assembler; failure →
deterministic fallback), then run the coverage enforcer and compute
totals.  The `city`/debug arguments only feed the prompt and UI. -/
def build_plan (wiki : String → String) (oracle : Nat → String → List Item → Option Day)
    (dates interests : List String) (wiki_sights : List Item) (by_interest : Pools) :
    Except String Plan :=
  match buildLoop wiki oracle interests dates 0 [] (initialPools by_interest)
      (initialSights wiki_sights) with
  | .error e => .error e
  | .ok st =>
    let cov := enforce_global_coverage wiki st.1 interests st.2.1 st.2.2
    .ok { days := cov.1,
          totals := { cost_low := 50 * cov.1.length, cost_high := 120 * cov.1.length } }

/-! ### Planner Client retry loop (`_retry_openai` / `_post_with_retries`)

`_retry_openai` in `streamlit_app.py` and `_post_with_retries` in
`server/app/llm.py` implement the identical loop: `delay = 3`, for
`attempt in range(1, max_retries+1)` post the request; status `< 400`
returns; a transient status (429/500/502/503/504) computes
`wait = max(retryAfterHint, delay)`, raises on the final attempt, and
otherwise sleeps `wait` and doubles `delay`; any other status raises
immediately.  They differ only in how the `Retry-After` header is parsed
to an integer (both default to 0 when absent or non-numeric), which is
upstream of the `hint : Nat` modelled here. -/

/-- One HTTP response: its status code and the already-parsed
`Retry-After` hint (0 when the header is absent or not digits). -/
structure HttpResp where
  status : Nat
  hint : Nat
deriving DecidableEq

/-- How one retried request ends: a `< 400` response at some attempt, an
`HTTPStatusError` raised at some attempt, or the (unreachable) loop
exhaustion that `llm.py` guards with a final `RuntimeError`. -/
inductive RetryResult where
  | ok (attempt status : Nat)
  | raised (attempt status : Nat)
  | exhausted
deriving DecidableEq

def transientStatus (s : Nat) : Bool :=
  s = 429 || s = 500 || s = 502 || s = 503 || s = 504

/-- The result together with the sequence of waits actually slept. -/
structure RetryOut where
  result : RetryResult
  waits : List Nat
deriving DecidableEq

/-- The retry loop body; `attempts` is the list produced by
`range(1, max_retries+1)` and `trace k` is the response to the `k`-th
request. -/
def retryGo (trace : Nat → HttpResp) (max_retries : Nat) :
    List Nat → Nat → List Nat → RetryOut
  | [], _, waits => { result := .exhausted, waits := waits }
  | attempt :: rest, delay, waits =>
    let r := trace attempt
    if r.status < 400 then { result := .ok attempt r.status, waits := waits }
    else if transientStatus r.status then
      let wait := max r.hint delay
      if attempt = max_retries then { result := .raised attempt r.status, waits := waits }
      else retryGo trace max_retries rest (delay * 2) (waits ++ [wait])
    else { result := .raised attempt r.status, waits := waits }

def _retry_openai (trace : Nat → HttpResp) (max_retries : Nat) : RetryOut :=
  retryGo trace max_retries (List.range' 1 max_retries) 3 []

/-- The call as made by the repo: `max_retries=5`. -/
def retryRun (trace : Nat → HttpResp) : RetryOut := _retry_openai trace 5

/-- The attempt number carried by a result (0 for the unreachable
exhaustion case). -/
def resultAttempt : RetryResult → Nat
  | .ok a _ => a
  | .raised a _ => a
  | .exhausted => 0

/-! ### Distance/Diversity Scorer (`server/app/planner.py`)

`score_day` computes with Python floats; the embedding uses real numbers
(the claims only involve values where float and real arithmetic agree
exactly). -/

/-- An item as read by `score_day`: only `lat`, `lon` and `category` are
accessed (`a.get(...)`, missing key → `None` → `none`). -/
structure SItem where
  lat : Option ℝ
  lon : Option ℝ
  category : Option String

/-- `math.radians`. -/
noncomputable def radians (x : ℝ) : ℝ := x * Real.pi / 180

/-- `_haversine_km(a, b)`: great-circle distance, Earth radius 6371 km;
0.0 when any coordinate is missing. -/
noncomputable def _haversine_km (a b : SItem) : ℝ :=
  match a.lat, a.lon, b.lat, b.lon with
  | some lat1, some lon1, some lat2, some lon2 =>
    let R : ℝ := 6371
    let dlat := radians (lat2 - lat1)
    let dlon := radians (lon2 - lon1)
    let h := Real.sin (dlat / 2) ^ 2 +
      Real.cos (radians lat1) * Real.cos (radians lat2) * Real.sin (dlon / 2) ^ 2
    2 * R * Real.arcsin (Real.sqrt h)
  | _, _, _, _ => 0

/-- Python's `round(x, 2)` on the exact values arising in the claims
(none sits at a half-ulp tie, where Python's round-half-even and
Mathlib's `round` could differ). -/
noncomputable def round2 (x : ℝ) : ℝ := ((round (x * 100) : ℤ) : ℝ) / 100

/-- `score_day(items)`: 0.0 for the empty list, otherwise
`round(max(0, 10 − walk) + 0.5 * |distinct categories|, 2)` where a
missing category defaults to `"other"` (`x.get("category", "other")`). -/
noncomputable def score_day : List SItem → ℝ
  | [] => 0
  | x :: xs =>
    let items := x :: xs
    let walk := ((items.zip items.tail).map (fun p => _haversine_km p.1 p.2)).sum
    let cats := ((items.map (fun it => it.category.getD "other")).dedup).length
    round2 (max 0 (10 - walk) + (1 / 2) * cats)

/-- Modelled from the spec's words, for refinement comparison only:
identical to `score_day` except that a missing category defaults to
`"sight"`, as the spec states. -/
noncomputable def score_day_spec : List SItem → ℝ
  | [] => 0
  | x :: xs =>
    let items := x :: xs
    let walk := ((items.zip items.tail).map (fun p => _haversine_km p.1 p.2)).sum
    let cats := ((items.map (fun it => it.category.getD "sight")).dedup).length
    round2 (max 0 (10 - walk) + (1 / 2) * cats)

/-! ### `date_range` (`server/app/tools.py`)

Python `datetime.date` objects are ordinals (`date.toordinal`) under the
hood: comparison and `+ timedelta(days=1)` are ordinal order and
successor, and `date.fromisoformat` / `date.isoformat` convert between
the `YYYY-MM-DD` string and the triple.  The embedding represents a
parsed date by its proleptic-Gregorian ordinal (0001-01-01 ↦ 1, exactly
`date.toordinal`). -/

def digitVal (c : Char) : Nat := c.toNat - 48

def isLeap (y : Nat) : Bool := (y % 4 = 0 ∧ y % 100 ≠ 0) ∨ y % 400 = 0

def monthLen (y m : Nat) : Nat :=
  if m = 2 then (if isLeap y then 29 else 28)
  else if m = 4 ∨ m = 6 ∨ m = 9 ∨ m = 11 then 30
  else 31

def daysInYear (y : Nat) : Nat := if isLeap y then 366 else 365

def daysBeforeMonth (y m : Nat) : Nat :=
  (List.range' 1 (m - 1)).foldl (fun a mm => a + monthLen y mm) 0

/-- `date(y,m,d).toordinal()`. -/
def toOrdinal (y m d : Nat) : Nat :=
  365 * (y - 1) + (y - 1) / 4 - (y - 1) / 100 + (y - 1) / 400 + daysBeforeMonth y m + d

/-- `date.fromisoformat` on the canonical `YYYY-MM-DD` layout, with
Python's year (1..9999), month and day-of-month validation; every other
string raises `ValueError`, modelled as `none`.  (Recent Python also
accepts a few other ISO-8601 layouts; none occur in the claims.) -/
def date_fromisoformat (s : String) : Option (Nat × Nat × Nat) :=
  match s.data with
  | [y1, y2, y3, y4, h1, m1, m2, h2, d1, d2] =>
    if h1 = '-' ∧ h2 = '-' ∧ ([y1, y2, y3, y4, m1, m2, d1, d2].all Char.isDigit) then
      let y := 1000 * digitVal y1 + 100 * digitVal y2 + 10 * digitVal y3 + digitVal y4
      let m := 10 * digitVal m1 + digitVal m2
      let d := 10 * digitVal d1 + digitVal d2
      if 1 ≤ y ∧ 1 ≤ m ∧ m ≤ 12 ∧ 1 ≤ d ∧ d ≤ monthLen y m then some (y, m, d) else none
    else none
  | _ => none

/-- Find the year containing ordinal `n`, returning the year and the
remaining day-of-year; the fuel argument (instantiated with `n`, far
more than the iterations needed) makes the loop structural. -/
def yearFrom : Nat → Nat → Nat → Nat × Nat
  | 0, y, n => (y, n)
  | fuel + 1, y, n =>
    if daysInYear y < n then yearFrom fuel (y + 1) (n - daysInYear y) else (y, n)

/-- Find the month containing day-of-year `n` of year `y`. -/
def monthFrom (y : Nat) : Nat → Nat → Nat → Nat × Nat
  | 0, m, n => (m, n)
  | fuel + 1, m, n =>
    if monthLen y m < n then monthFrom y fuel (m + 1) (n - monthLen y m) else (m, n)

def ofOrdinal (n : Nat) : Nat × Nat × Nat :=
  let yn := yearFrom n 1 n
  let md := monthFrom yn.1 12 1 yn.2
  (yn.1, md.1, md.2)

/-- Zero-pad a number to a width, as `date.isoformat` does. -/
def padNum (w n : Nat) : String :=
  let s := Nat.repr n
  ⟨List.replicate (w - s.length) '0' ++ s.data⟩

/-- `date.isoformat()` of the date with ordinal `n`. -/
def date_isoformat (n : Nat) : String :=
  let t := ofOrdinal n
  padNum 4 t.1 ++ "-" ++ padNum 2 t.2.1 ++ "-" ++ padNum 2 t.2.2

/-- The `while s <= e` loop over ordinals, as structural recursion on
the exact number of appended days. -/
def dateLoopGo : Nat → Nat → List String
  | 0, _ => []
  | fuel + 1, s => date_isoformat s :: dateLoopGo fuel (s + 1)

def dateLoop (s e : Nat) : List String := dateLoopGo (e + 1 - s) s

/-- `date_range(start, end)`: parse both bounds (`ValueError`, modelled
as `Except.error`, propagates to the caller when either is malformed),
then collect the inclusive day list. -/
def date_range (start end_ : String) : Except String (List String) :=
  match date_fromisoformat start, date_fromisoformat end_ with
  | some s, some e => .ok (dateLoop (toOrdinal s.1 s.2.1 s.2.2) (toOrdinal e.1 e.2.1 e.2.2))
  | _, _ => .error "ValueError: Invalid isoformat string"

/-! ### Concrete fixtures used by counterexamples and witnesses -/

/-- A constant summary oracle (`wiki_summary` always returns a string). -/
def wiki0 : String → String := fun _ => "w"

def itA_food : Item :=
  { name := some "A", lat := none, lon := none, category := some "food",
    start := none, end_ := none, blurb := none }

def itA_sight : Item :=
  { name := some "A", lat := none, lon := none, category := some "sight",
    start := some "09:00", end_ := some "11:00", blurb := some "x" }

def itB_hist : Item :=
  { name := some "B", lat := none, lon := none, category := some "history",
    start := some "11:00", end_ := some "13:00", blurb := some "x" }

def itC_nature : Item :=
  { name := some "C", lat := none, lon := none, category := some "nature",
    start := some "14:00", end_ := none, blurb := some "x" }

def itD_sight : Item :=
  { name := some "D", lat := none, lon := none, category := some "sight",
    start := some "16:00", end_ := none, blurb := some "x" }

def itE_sight : Item :=
  { name := some "E", lat := none, lon := none, category := some "sight",
    start := some "12:00", end_ := none, blurb := some "x" }

def itH : Item := mkItem (some "H") (some "history")

def itS : Item := mkItem (some "S") (some "sight")

/-- A planner oracle returning one fixed two-category day. -/
def oracle1 : Nat → String → List Item → Option Day :=
  fun _ _ _ => some { date := "2025-09-01", items := [itA_sight, itB_hist] }

/-- A planner oracle returning one fixed full (4-item, 2-category) day. -/
def oracle4 : Nat → String → List Item → Option Day :=
  fun _ _ _ => some { date := "2025-09-01", items := [itA_sight, itC_nature, itD_sight, itE_sight] }

/-- A planner oracle returning a day with an empty item list. -/
def oracleEmpty : Nat → String → List Item → Option Day :=
  fun _ _ _ => some { date := "2025-09-01", items := [] }

/-- A planner oracle that always fails (every retry exhausted / parse failed). -/
def oracleNone : Nat → String → List Item → Option Day := fun _ _ _ => none

/-- The per-day property asserted by the day invariants: at most 4 items
and pairwise-distinct dedup keys. -/
def dayClaimOK (d : Day) : Bool :=
  decide (d.items.length ≤ 4) && decide ((d.items.map (fun it => normKey it.name)).Nodup)

/-- An HTTP trace: two transient 429 responses carrying a Retry-After
hint of 7, then success. -/
def trace0 : Nat → HttpResp :=
  fun k => if k ≤ 2 then { status := 429, hint := 7 } else { status := 200, hint := 0 }

end VoyageCraft

namespace VoyageCraft

/-! ## Helper lemmas -/

lemma retryGo_ok {trace : Nat → HttpResp} {m a : Nat} {rest : List Nat} {delay : Nat}
    {waits : List Nat} (h : (trace a).status < 400) :
    retryGo trace m (a :: rest) delay waits = { result := .ok a (trace a).status, waits := waits } := by
  simp [retryGo, h]

lemma retryGo_fatal {trace : Nat → HttpResp} {m a : Nat} {rest : List Nat} {delay : Nat}
    {waits : List Nat} (h : ¬ (trace a).status < 400) (ht : ¬ transientStatus (trace a).status) :
    retryGo trace m (a :: rest) delay waits =
      { result := .raised a (trace a).status, waits := waits } := by
  simp [retryGo, h, ht]

lemma retryGo_final {trace : Nat → HttpResp} {m a : Nat} {rest : List Nat} {delay : Nat}
    {waits : List Nat} (h : ¬ (trace a).status < 400) (ht : transientStatus (trace a).status)
    (ha : a = m) :
    retryGo trace m (a :: rest) delay waits =
      { result := .raised a (trace a).status, waits := waits } := by
  subst ha; simp [retryGo, h, ht]

lemma retryGo_retry {trace : Nat → HttpResp} {m a : Nat} {rest : List Nat} {delay : Nat}
    {waits : List Nat} (h : ¬ (trace a).status < 400) (ht : transientStatus (trace a).status)
    (ha : a ≠ m) :
    retryGo trace m (a :: rest) delay waits =
      retryGo trace m rest (delay * 2) (waits ++ [max (trace a).hint delay]) := by
  simp [retryGo, h, ht, ha]

end VoyageCraft

namespace VoyageCraft

/-! ## C2: retry policy of the Planner Client -/


set_option maxHeartbeats 2000000 in
/-- C2: For every retried planning request, at most 4 waits occur (5
attempts total) and the loop never falls through; the wait before the
retry that follows attempt k (1-indexed) equals
max(serverSuppliedRetryAfterHint, 3·2^(k−1)); when all five attempts
fail transiently (429/500/502/503/504) the fifth surfaces the error
instead of retrying; a non-transient error status is surfaced
immediately, with exactly the waits of the preceding transient attempts
and none for itself. -/
theorem C2_retry (trace : Nat → HttpResp) :
    (retryRun trace).waits.length ≤ 4 ∧
    (retryRun trace).result ≠ .exhausted ∧
    resultAttempt (retryRun trace).result ≤ 5 ∧
    (∀ k, k < (retryRun trace).waits.length →
      (retryRun trace).waits.getD k 0 = max (trace (k + 1)).hint (3 * 2 ^ k)) ∧
    ((∀ j, 1 ≤ j → j ≤ 5 → 400 ≤ (trace j).status ∧ transientStatus (trace j).status) →
      (retryRun trace).result = .raised 5 (trace 5).status ∧ (retryRun trace).waits.length = 4) ∧
    (∀ k, 1 ≤ k → k ≤ 5 →
      (∀ j, 1 ≤ j → j < k → 400 ≤ (trace j).status ∧ transientStatus (trace j).status) →
      400 ≤ (trace k).status → transientStatus (trace k).status = false →
      (retryRun trace).result = .raised k (trace k).status ∧
        (retryRun trace).waits.length = k - 1) := by
  by_cases h1 : (trace 1).status < 400
  · -- attempt 1 succeeds
    have hE : retryRun trace = { result := .ok 1 (trace 1).status, waits := [] } := by
      show retryGo trace 5 [1, 2, 3, 4, 5] 3 [] = _
      rw [retryGo_ok h1]
    rw [hE]
    refine ⟨by norm_num, by simp, by norm_num [resultAttempt], ?_, ?_, ?_⟩
    · intro k hk; simp at hk
    · intro hall; exact absurd (hall 1 (by omega) (by omega)).1 (by omega)
    · intro k hk1 hk5 hprev hk400 hktr; exfalso
      interval_cases k
      · omega
      · exact absurd (hprev 1 (by omega) (by omega)).1 (by omega)
      · exact absurd (hprev 1 (by omega) (by omega)).1 (by omega)
      · exact absurd (hprev 1 (by omega) (by omega)).1 (by omega)
      · exact absurd (hprev 1 (by omega) (by omega)).1 (by omega)
  · by_cases t1 : transientStatus (trace 1).status = true
    · -- transient at attempt 1: wait and retry
      by_cases h2 : (trace 2).status < 400
      · -- attempt 2 succeeds
        have hE : retryRun trace = { result := .ok 2 (trace 2).status, waits := [max (trace 1).hint 3] } := by
          show retryGo trace 5 [1, 2, 3, 4, 5] 3 [] = _
          rw [retryGo_retry h1 t1 (by omega), retryGo_ok h2]
          norm_num
        rw [hE]
        refine ⟨by norm_num, by simp, by norm_num [resultAttempt], ?_, ?_, ?_⟩
        · intro k hk
          have hkn : k < 1 := by simp at hk; omega
          interval_cases k <;> norm_num [List.getD_cons_zero, List.getD_cons_succ]
        · intro hall; exact absurd (hall 2 (by omega) (by omega)).1 (by omega)
        · intro k hk1 hk5 hprev hk400 hktr; exfalso
          interval_cases k
          · simp [t1] at hktr
          · omega
          · exact absurd (hprev 2 (by omega) (by omega)).1 (by omega)
          · exact absurd (hprev 2 (by omega) (by omega)).1 (by omega)
          · exact absurd (hprev 2 (by omega) (by omega)).1 (by omega)
      · by_cases t2 : transientStatus (trace 2).status = true
        · -- transient at attempt 2: wait and retry
          by_cases h3 : (trace 3).status < 400
          · -- attempt 3 succeeds
            have hE : retryRun trace = { result := .ok 3 (trace 3).status, waits := [max (trace 1).hint 3, max (trace 2).hint 6] } := by
              show retryGo trace 5 [1, 2, 3, 4, 5] 3 [] = _
              rw [retryGo_retry h1 t1 (by omega), retryGo_retry h2 t2 (by omega), retryGo_ok h3]
              norm_num
            rw [hE]
            refine ⟨by norm_num, by simp, by norm_num [resultAttempt], ?_, ?_, ?_⟩
            · intro k hk
              have hkn : k < 2 := by simp at hk; omega
              interval_cases k <;> norm_num [List.getD_cons_zero, List.getD_cons_succ]
            · intro hall; exact absurd (hall 3 (by omega) (by omega)).1 (by omega)
            · intro k hk1 hk5 hprev hk400 hktr; exfalso
              interval_cases k
              · simp [t1] at hktr
              · simp [t2] at hktr
              · omega
              · exact absurd (hprev 3 (by omega) (by omega)).1 (by omega)
              · exact absurd (hprev 3 (by omega) (by omega)).1 (by omega)
          · by_cases t3 : transientStatus (trace 3).status = true
            · -- transient at attempt 3: wait and retry
              by_cases h4 : (trace 4).status < 400
              · -- attempt 4 succeeds
                have hE : retryRun trace = { result := .ok 4 (trace 4).status, waits := [max (trace 1).hint 3, max (trace 2).hint 6, max (trace 3).hint 12] } := by
                  show retryGo trace 5 [1, 2, 3, 4, 5] 3 [] = _
                  rw [retryGo_retry h1 t1 (by omega), retryGo_retry h2 t2 (by omega), retryGo_retry h3 t3 (by omega), retryGo_ok h4]
                  norm_num
                rw [hE]
                refine ⟨by norm_num, by simp, by norm_num [resultAttempt], ?_, ?_, ?_⟩
                · intro k hk
                  have hkn : k < 3 := by simp at hk; omega
                  interval_cases k <;> norm_num [List.getD_cons_zero, List.getD_cons_succ]
                · intro hall; exact absurd (hall 4 (by omega) (by omega)).1 (by omega)
                · intro k hk1 hk5 hprev hk400 hktr; exfalso
                  interval_cases k
                  · simp [t1] at hktr
                  · simp [t2] at hktr
                  · simp [t3] at hktr
                  · omega
                  · exact absurd (hprev 4 (by omega) (by omega)).1 (by omega)
              · by_cases t4 : transientStatus (trace 4).status = true
                · -- transient at attempt 4: wait and retry
                  by_cases h5 : (trace 5).status < 400
                  · -- attempt 5 succeeds
                    have hE : retryRun trace = { result := .ok 5 (trace 5).status, waits := [max (trace 1).hint 3, max (trace 2).hint 6, max (trace 3).hint 12, max (trace 4).hint 24] } := by
                      show retryGo trace 5 [1, 2, 3, 4, 5] 3 [] = _
                      rw [retryGo_retry h1 t1 (by omega), retryGo_retry h2 t2 (by omega), retryGo_retry h3 t3 (by omega), retryGo_retry h4 t4 (by omega), retryGo_ok h5]
                      norm_num
                    rw [hE]
                    refine ⟨by norm_num, by simp, by norm_num [resultAttempt], ?_, ?_, ?_⟩
                    · intro k hk
                      have hkn : k < 4 := by simp at hk; omega
                      interval_cases k <;> norm_num [List.getD_cons_zero, List.getD_cons_succ]
                    · intro hall; exact absurd (hall 5 (by omega) (by omega)).1 (by omega)
                    · intro k hk1 hk5 hprev hk400 hktr; exfalso
                      interval_cases k
                      · simp [t1] at hktr
                      · simp [t2] at hktr
                      · simp [t3] at hktr
                      · simp [t4] at hktr
                      · omega
                  · by_cases t5 : transientStatus (trace 5).status = true
                    · -- transient failure on the final attempt: raised, not retried
                      have hE : retryRun trace = { result := .raised 5 (trace 5).status, waits := [max (trace 1).hint 3, max (trace 2).hint 6, max (trace 3).hint 12, max (trace 4).hint 24] } := by
                        show retryGo trace 5 [1, 2, 3, 4, 5] 3 [] = _
                        rw [retryGo_retry h1 t1 (by omega), retryGo_retry h2 t2 (by omega), retryGo_retry h3 t3 (by omega), retryGo_retry h4 t4 (by omega), retryGo_final h5 t5 rfl]
                        norm_num
                      rw [hE]
                      refine ⟨by norm_num, by simp, by norm_num [resultAttempt], ?_, ?_, ?_⟩
                      · intro k hk
                        have hkn : k < 4 := by simp at hk; omega
                        interval_cases k <;> norm_num [List.getD_cons_zero, List.getD_cons_succ]
                      · intro hall; exact ⟨rfl, by norm_num⟩
                      · intro k hk1 hk5 hprev hk400 hktr; exfalso
                        interval_cases k
                        · simp [t1] at hktr
                        · simp [t2] at hktr
                        · simp [t3] at hktr
                        · simp [t4] at hktr
                        · simp [t5] at hktr
                    · -- non-transient failure at attempt 5
                      have hE : retryRun trace = { result := .raised 5 (trace 5).status, waits := [max (trace 1).hint 3, max (trace 2).hint 6, max (trace 3).hint 12, max (trace 4).hint 24] } := by
                        show retryGo trace 5 [1, 2, 3, 4, 5] 3 [] = _
                        rw [retryGo_retry h1 t1 (by omega), retryGo_retry h2 t2 (by omega), retryGo_retry h3 t3 (by omega), retryGo_retry h4 t4 (by omega), retryGo_fatal h5 t5]
                        norm_num
                      rw [hE]
                      refine ⟨by norm_num, by simp, by norm_num [resultAttempt], ?_, ?_, ?_⟩
                      · intro k hk
                        have hkn : k < 4 := by simp at hk; omega
                        interval_cases k <;> norm_num [List.getD_cons_zero, List.getD_cons_succ]
                      · intro hall; exact absurd (hall 5 (by omega) (by omega)).2 t5
                      · intro k hk1 hk5 hprev hk400 hktr
                        interval_cases k
                        · exact absurd hktr (by simp [t1])
                        · exact absurd hktr (by simp [t2])
                        · exact absurd hktr (by simp [t3])
                        · exact absurd hktr (by simp [t4])
                        · exact ⟨rfl, by norm_num⟩
                · -- non-transient failure at attempt 4
                  have hE : retryRun trace = { result := .raised 4 (trace 4).status, waits := [max (trace 1).hint 3, max (trace 2).hint 6, max (trace 3).hint 12] } := by
                    show retryGo trace 5 [1, 2, 3, 4, 5] 3 [] = _
                    rw [retryGo_retry h1 t1 (by omega), retryGo_retry h2 t2 (by omega), retryGo_retry h3 t3 (by omega), retryGo_fatal h4 t4]
                    norm_num
                  rw [hE]
                  refine ⟨by norm_num, by simp, by norm_num [resultAttempt], ?_, ?_, ?_⟩
                  · intro k hk
                    have hkn : k < 3 := by simp at hk; omega
                    interval_cases k <;> norm_num [List.getD_cons_zero, List.getD_cons_succ]
                  · intro hall; exact absurd (hall 4 (by omega) (by omega)).2 t4
                  · intro k hk1 hk5 hprev hk400 hktr
                    interval_cases k
                    · exact absurd hktr (by simp [t1])
                    · exact absurd hktr (by simp [t2])
                    · exact absurd hktr (by simp [t3])
                    · exact ⟨rfl, by norm_num⟩
                    · exact absurd (hprev 4 (by omega) (by omega)).2 t4
            · -- non-transient failure at attempt 3
              have hE : retryRun trace = { result := .raised 3 (trace 3).status, waits := [max (trace 1).hint 3, max (trace 2).hint 6] } := by
                show retryGo trace 5 [1, 2, 3, 4, 5] 3 [] = _
                rw [retryGo_retry h1 t1 (by omega), retryGo_retry h2 t2 (by omega), retryGo_fatal h3 t3]
                norm_num
              rw [hE]
              refine ⟨by norm_num, by simp, by norm_num [resultAttempt], ?_, ?_, ?_⟩
              · intro k hk
                have hkn : k < 2 := by simp at hk; omega
                interval_cases k <;> norm_num [List.getD_cons_zero, List.getD_cons_succ]
              · intro hall; exact absurd (hall 3 (by omega) (by omega)).2 t3
              · intro k hk1 hk5 hprev hk400 hktr
                interval_cases k
                · exact absurd hktr (by simp [t1])
                · exact absurd hktr (by simp [t2])
                · exact ⟨rfl, by norm_num⟩
                · exact absurd (hprev 3 (by omega) (by omega)).2 t3
                · exact absurd (hprev 3 (by omega) (by omega)).2 t3
        · -- non-transient failure at attempt 2
          have hE : retryRun trace = { result := .raised 2 (trace 2).status, waits := [max (trace 1).hint 3] } := by
            show retryGo trace 5 [1, 2, 3, 4, 5] 3 [] = _
            rw [retryGo_retry h1 t1 (by omega), retryGo_fatal h2 t2]
            norm_num
          rw [hE]
          refine ⟨by norm_num, by simp, by norm_num [resultAttempt], ?_, ?_, ?_⟩
          · intro k hk
            have hkn : k < 1 := by simp at hk; omega
            interval_cases k <;> norm_num [List.getD_cons_zero, List.getD_cons_succ]
          · intro hall; exact absurd (hall 2 (by omega) (by omega)).2 t2
          · intro k hk1 hk5 hprev hk400 hktr
            interval_cases k
            · exact absurd hktr (by simp [t1])
            · exact ⟨rfl, by norm_num⟩
            · exact absurd (hprev 2 (by omega) (by omega)).2 t2
            · exact absurd (hprev 2 (by omega) (by omega)).2 t2
            · exact absurd (hprev 2 (by omega) (by omega)).2 t2
    · -- non-transient failure at attempt 1
      have hE : retryRun trace = { result := .raised 1 (trace 1).status, waits := [] } := by
        show retryGo trace 5 [1, 2, 3, 4, 5] 3 [] = _
        rw [retryGo_fatal h1 t1]
      rw [hE]
      refine ⟨by norm_num, by simp, by norm_num [resultAttempt], ?_, ?_, ?_⟩
      · intro k hk; simp at hk
      · intro hall; exact absurd (hall 1 (by omega) (by omega)).2 t1
      · intro k hk1 hk5 hprev hk400 hktr
        interval_cases k
        · exact ⟨rfl, by norm_num⟩
        · exact absurd (hprev 1 (by omega) (by omega)).2 t1
        · exact absurd (hprev 1 (by omega) (by omega)).2 t1
        · exact absurd (hprev 1 (by omega) (by omega)).2 t1
        · exact absurd (hprev 1 (by omega) (by omega)).2 t1

/-- Witness for C2_retry: on a trace of two 429s with Retry-After 7 and
then a success, the wait that follows attempt 2 is max(7, 6) = 7. -/
theorem C2_retry_witness :
    (retryRun trace0).waits.getD 1 0 = max (trace0 2).hint (3 * 2 ^ 1) :=
  (C2_retry trace0).2.2.2.1 1 (by decide)

end VoyageCraft

namespace VoyageCraft

/-! Step equations for the loop definitions. -/

lemma fallbackInterests_nil (wiki : String → String) (a : String) (rest : List String)
    (items : List Item) (pools : Pools) (h : getPool pools a = []) :
    fallbackInterests wiki (a :: rest) items pools = fallbackInterests wiki rest items pools := by
  simp [fallbackInterests, h]

lemma fallbackInterests_pop (wiki : String → String) (a : String) (rest : List String)
    (items : List Item) (pools : Pools) (x : Item) (tl : List Item)
    (h : getPool pools a = x :: tl) :
    fallbackInterests wiki (a :: rest) items pools =
      fallbackInterests wiki rest (items ++ [fbSlot wiki a x]) (setPool pools a tl) := by
  simp [fallbackInterests, h]

lemma coverGo_nil (wiki : String → String) (miss : String) (rest : List String)
    (days : List Day) (pools : Pools) (h : getPool pools miss = []) :
    coverGo wiki (miss :: rest) days pools = coverGo wiki rest days pools := by
  simp [coverGo, h]

lemma coverGo_nocap (wiki : String → String) (miss : String) (rest : List String)
    (days : List Day) (pools : Pools) (it : Item) (tl : List Item)
    (h : getPool pools miss = it :: tl)
    (h2 : injectFirst (slotCov wiki miss it) days = none) :
    coverGo wiki (miss :: rest) days pools = coverGo wiki rest days pools := by
  simp [coverGo, h, h2]

lemma coverGo_inject (wiki : String → String) (miss : String) (rest : List String)
    (days : List Day) (pools : Pools) (it : Item) (tl : List Item) (days2 : List Day)
    (h : getPool pools miss = it :: tl)
    (h2 : injectFirst (slotCov wiki miss it) days = some days2) :
    coverGo wiki (miss :: rest) days pools = coverGo wiki rest days2 (setPool pools miss tl) := by
  simp [coverGo, h, h2]

lemma buildLoop_some_ok (wiki : String → String) (oracle : Nat → String → List Item → Option Day)
    (interests : List String) (d : String) (rest : List String) (i : Nat) (acc : List Day)
    (pools : Pools) (sights : List Item) (obj : Day) (st : Day × Pools × List Item)
    (hO : oracle i d (candSlice interests pools sights) = some obj)
    (hE : enforce_daily_mix wiki obj interests pools sights = .ok st) :
    buildLoop wiki oracle interests (d :: rest) i acc pools sights =
      buildLoop wiki oracle interests rest (i + 1)
        (acc ++ [{ date := st.1.date, items := st.1.items }]) st.2.1 st.2.2 := by
  simp [buildLoop, hO, hE]

lemma buildLoop_some_err (wiki : String → String) (oracle : Nat → String → List Item → Option Day)
    (interests : List String) (d : String) (rest : List String) (i : Nat) (acc : List Day)
    (pools : Pools) (sights : List Item) (obj : Day) (e : String)
    (hO : oracle i d (candSlice interests pools sights) = some obj)
    (hE : enforce_daily_mix wiki obj interests pools sights = .error e) :
    buildLoop wiki oracle interests (d :: rest) i acc pools sights = .error e := by
  simp [buildLoop, hO, hE]

lemma buildLoop_none (wiki : String → String) (oracle : Nat → String → List Item → Option Day)
    (interests : List String) (d : String) (rest : List String) (i : Nat) (acc : List Day)
    (pools : Pools) (sights : List Item)
    (hO : oracle i d (candSlice interests pools sights) = none) :
    buildLoop wiki oracle interests (d :: rest) i acc pools sights =
      buildLoop wiki oracle interests rest (i + 1)
        (acc ++ [{ date := d,
                   items := (fallbackSights wiki [("14:00", "16:00"), ("16:00", "18:00")]
                     (fallbackInterests wiki (interests.take 2) [] pools).1 sights).1 }])
        (fallbackInterests wiki (interests.take 2) [] pools).2
        (fallbackSights wiki [("14:00", "16:00"), ("16:00", "18:00")]
          (fallbackInterests wiki (interests.take 2) [] pools).1 sights).2 := by
  simp [buildLoop, hO]

/-! Length invariants feeding the amended day-cap claim. -/

/-- The Day Assembler always returns a day with at most 4 items (the
`items[:4]` truncation). -/
lemma enforce_daily_mix_len {wiki : String → String} {day : Day} {interests : List String}
    {pools : Pools} {sights : List Item} {d2 : Day} {p2 : Pools} {s2 : List Item}
    (h : enforce_daily_mix wiki day interests pools sights = .ok (d2, p2, s2)) :
    d2.items.length ≤ 4 := by
  simp only [enforce_daily_mix] at h
  split at h
  · exact absurd h (by simp)
  · simp only [Except.ok.injEq, Prod.mk.injEq] at h
    obtain ⟨hd, _, _⟩ := h
    subst hd
    simp [List.length_take]

/-- The first fallback loop adds at most one item per interest. -/
lemma fallbackInterests_len (wiki : String → String) (l : List String) :
    ∀ (items : List Item) (pools : Pools),
      ((fallbackInterests wiki l items pools).1).length ≤ items.length + l.length := by
  induction l with
  | nil => intro items pools; simp [fallbackInterests]
  | cons a rest ih =>
    intro items pools
    cases hP : getPool pools a with
    | nil =>
      rw [fallbackInterests_nil wiki a rest items pools hP]
      have := ih items pools
      simp only [List.length_cons]
      omega
    | cons x tl =>
      rw [fallbackInterests_pop wiki a rest items pools x tl hP]
      refine le_trans (ih _ _) ?_
      simp only [List.length_append, List.length_cons, List.length_nil]
      omega

/-- The sights top-up loop never pushes a day beyond 4 items. -/
lemma fallbackSights_len (wiki : String → String) (slots : List (String × String)) :
    ∀ (items : List Item) (sights : List Item), items.length ≤ 4 →
      ((fallbackSights wiki slots items sights).1).length ≤ 4 := by
  induction slots with
  | nil => intro items sights h; simpa [fallbackSights] using h
  | cons slot rest ih =>
    intro items sights h
    simp only [fallbackSights]
    by_cases h4 : 4 ≤ items.length
    · simp [h4]; omega
    · rw [if_neg h4]
      cases sights with
      | nil => exact ih items [] h
      | cons s tl =>
        refine ih _ _ ?_
        simp only [List.length_append, List.length_cons, List.length_nil]
        omega

/-- Injection preserves the 4-item cap (it only targets days with spare
capacity). -/
lemma injectFirst_len {it : Item} : ∀ {days : List Day} {days2 : List Day},
    injectFirst it days = some days2 → (∀ d ∈ days, d.items.length ≤ 4) →
    ∀ d ∈ days2, d.items.length ≤ 4 := by
  intro days
  induction days with
  | nil => intro days2 h; simp [injectFirst] at h
  | cons d rest ih =>
    intro days2 h hall
    simp only [injectFirst] at h
    by_cases hc : d.items.length < 4
    · rw [if_pos hc] at h
      injection h with h2
      subst h2
      intro d2 hd2
      rcases List.mem_cons.1 hd2 with rfl | hmem
      · simp only [List.length_append, List.length_cons, List.length_nil]
        omega
      · exact hall d2 (List.mem_cons_of_mem _ hmem)
    · rw [if_neg hc] at h
      cases hR : injectFirst it rest with
      | none => rw [hR] at h; simp at h
      | some tl2 =>
        rw [hR] at h
        simp at h
        subst h
        intro d2 hd2
        rcases List.mem_cons.1 hd2 with rfl | hmem
        · exact hall d2 (List.mem_cons_self _ _)
        · exact ih hR (fun x hx => hall x (List.mem_cons_of_mem _ hx)) d2 hmem

/-- The Coverage Enforcer loop preserves the 4-item cap. -/
lemma coverGo_len (wiki : String → String) (ms : List String) :
    ∀ (days : List Day) (pools : Pools), (∀ d ∈ days, d.items.length ≤ 4) →
      ∀ d ∈ (coverGo wiki ms days pools).1, d.items.length ≤ 4 := by
  induction ms with
  | nil => intro days pools h; simpa [coverGo] using h
  | cons miss rest ih =>
    intro days pools h
    cases hP : getPool pools miss with
    | nil => rw [coverGo_nil wiki miss rest days pools hP]; exact ih days pools h
    | cons it tl =>
      cases hI : injectFirst (slotCov wiki miss it) days with
      | none => rw [coverGo_nocap wiki miss rest days pools it tl hP hI]; exact ih days pools h
      | some days2 =>
        rw [coverGo_inject wiki miss rest days pools it tl days2 hP hI]
        exact ih days2 _ (injectFirst_len hI h)

/-- Every day accumulated by the per-date loop keeps at most 4 items. -/
lemma buildLoop_len (wiki : String → String) (oracle : Nat → String → List Item → Option Day)
    (interests : List String) (dates : List String) :
    ∀ (i : Nat) (acc : List Day) (pools : Pools) (sights : List Item)
      (out : List Day × Pools × List Item),
      (∀ d ∈ acc, d.items.length ≤ 4) →
      buildLoop wiki oracle interests dates i acc pools sights = .ok out →
      ∀ d ∈ out.1, d.items.length ≤ 4 := by
  induction dates with
  | nil =>
    intro i acc pools sights out hacc h
    simp only [buildLoop, Except.ok.injEq] at h
    subst h
    exact hacc
  | cons d rest ih =>
    intro i acc pools sights out hacc h
    cases hO : oracle i d (candSlice interests pools sights) with
    | some obj =>
      cases hE : enforce_daily_mix wiki obj interests pools sights with
      | error e => rw [buildLoop_some_err wiki oracle interests d rest i acc pools sights obj e hO hE] at h; exact absurd h (by simp)
      | ok st =>
        rw [buildLoop_some_ok wiki oracle interests d rest i acc pools sights obj st hO hE] at h
        refine ih _ _ _ _ _ ?_ h
        intro d2 hd2
        rcases List.mem_append.1 hd2 with hmem | hmem
        · exact hacc d2 hmem
        · obtain rfl : d2 = { date := st.1.date, items := st.1.items } := by simpa using hmem
          obtain ⟨dd, pp, ss⟩ := st
          exact enforce_daily_mix_len hE
    | none =>
      rw [buildLoop_none wiki oracle interests d rest i acc pools sights hO] at h
      refine ih _ _ _ _ _ ?_ h
      intro d2 hd2
      rcases List.mem_append.1 hd2 with hmem | hmem
      · exact hacc d2 hmem
      · obtain rfl : d2 = _ := by simpa using hmem
        refine fallbackSights_len wiki _ _ _ ?_
        refine le_trans (fallbackInterests_len wiki _ [] pools) ?_
        simp only [List.length_nil, Nat.zero_add]
        exact le_trans (List.length_take_le 2 interests) (by omega)

end VoyageCraft

namespace VoyageCraft

/-! ## Deduplication lemmas (C9, C10) -/

/-- Every item kept by the dedup loop has a non-empty key not in `seen`,
and the kept keys are pairwise distinct. -/
lemma dedupeGo_props (xs : List Item) : ∀ seen : List String,
    (∀ it ∈ dedupeGo seen xs, normKey it.name ≠ "" ∧ normKey it.name ∉ seen) ∧
    ((dedupeGo seen xs).map (fun it => normKey it.name)).Nodup := by
  induction xs with
  | nil => intro seen; simp [dedupeGo]
  | cons it rest ih =>
    intro seen
    by_cases h : normKey it.name ≠ "" ∧ normKey it.name ∉ seen
    · have hstep : dedupeGo seen (it :: rest) = it :: dedupeGo (normKey it.name :: seen) rest := by
        simp [dedupeGo, h]
      rw [hstep]
      obtain ⟨ihmem, ihnd⟩ := ih (normKey it.name :: seen)
      constructor
      · intro x hx
        rcases List.mem_cons.1 hx with rfl | hx
        · exact h
        · have := ihmem x hx
          exact ⟨this.1, fun hs => this.2 (List.mem_cons_of_mem _ hs)⟩
      · refine List.nodup_cons.2 ⟨?_, ihnd⟩
        intro hmem
        rcases List.mem_map.1 hmem with ⟨y, hy, hkey⟩
        exact (ihmem y hy).2 (hkey ▸ List.mem_cons_self _ _)
    · have hstep : dedupeGo seen (it :: rest) = dedupeGo seen rest := by
        simp only [dedupeGo]
        rw [if_neg h]
      rw [hstep]
      exact ih seen

/-- A list whose keys are non-empty, pairwise distinct and disjoint from
`seen` passes through the dedup loop unchanged. -/
lemma dedupeGo_fix (ys : List Item) : ∀ seen : List String,
    (∀ it ∈ ys, normKey it.name ≠ "" ∧ normKey it.name ∉ seen) →
    ((ys.map (fun it => normKey it.name)).Nodup) →
    dedupeGo seen ys = ys := by
  induction ys with
  | nil => intro seen _ _; simp [dedupeGo]
  | cons y rest ih =>
    intro seen hmem hnd
    have hy := hmem y (List.mem_cons_self _ _)
    have hstep : dedupeGo seen (y :: rest) = y :: dedupeGo (normKey y.name :: seen) rest := by
      simp [dedupeGo, hy.1, hy.2]
    rw [hstep]
    have hnd2 : (∀ x ∈ rest, ¬ normKey x.name = normKey y.name) ∧
        ((rest.map (fun it => normKey it.name)).Nodup) := by simpa using hnd
    congr 1
    apply ih
    · intro it hit
      have h1 := hmem it (List.mem_cons_of_mem _ hit)
      refine ⟨h1.1, ?_⟩
      intro hs
      rcases List.mem_cons.1 hs with heq | hs2
      · exact hnd2.1 it hit heq
      · exact h1.2 hs2
    · exact hnd2.2

lemma pyStrip_allSpace {l : List Char} (h : ∀ c ∈ l, pySpace c) : pyStripList l = [] := by
  unfold pyStripList
  have h1 : l.dropWhile pySpace = [] := List.dropWhile_eq_nil_iff.2 h
  simp [h1]

/-- An item whose name is a single space: its dedup key is empty. -/
def itWS : Item := mkItem (some " ") none

/-- C9 counterexample: the claim's parenthetical "equivalently, every
sequence with pairwise-distinct normalized-name keys is returned
unchanged" fails: `[itWS]` has (trivially) pairwise-distinct keys, yet
`_dedupe_by_name` drops its whitespace-named item. -/
theorem C9_counterexample :
    (([itWS].map (fun it => normKey it.name)).Nodup) ∧
    _dedupe_by_name [itWS] = [] ∧ _dedupe_by_name [itWS] ≠ [itWS] := by decide

/-- C9 (amended): `_dedupe_by_name` is idempotent, and a sequence is
returned unchanged precisely when its keys are pairwise distinct AND
non-empty (sequences that are outputs of the dedup satisfy both). -/
theorem C9_dedupe_idempotent :
    (∀ xs : List Item, _dedupe_by_name (_dedupe_by_name xs) = _dedupe_by_name xs) ∧
    (∀ xs : List Item, ((xs.map (fun it => normKey it.name)).Nodup) →
      (∀ it ∈ xs, normKey it.name ≠ "") → _dedupe_by_name xs = xs) := by
  constructor
  · intro xs
    have hp := dedupeGo_props xs []
    apply dedupeGo_fix
    · intro it hit
      exact ⟨(hp.1 it hit).1, by simp⟩
    · exact hp.2
  · intro xs hnd hne
    apply dedupeGo_fix
    · intro it hit; exact ⟨hne it hit, by simp⟩
    · exact hnd

/-- Witness for C9_dedupe_idempotent at the singleton `[itH]`. -/
theorem C9_dedupe_idempotent_witness : _dedupe_by_name [itH] = [itH] :=
  C9_dedupe_idempotent.2 [itH] (by decide) (by decide)

/-- C10: an item whose normalized key is empty never appears in any
deduplicated sequence (every context — pools, candidate slices, day item
lists — goes through this one function), and the key is empty exactly
for an absent name or a name consisting only of whitespace (which covers
the empty string). -/
theorem C10_empty_names_dropped :
    (∀ (xs : List Item) (it : Item), it ∈ _dedupe_by_name xs → normKey it.name ≠ "") ∧
    normKey none = "" ∧
    (∀ s : String, (∀ c ∈ s.data, pySpace c) → normKey (some s) = "") := by
  refine ⟨?_, rfl, ?_⟩
  · intro xs it hit
    exact ((dedupeGo_props xs []).1 it hit).1
  · intro s hs
    show (⟨(collapseGo false (pyStripList ((some s).getD "").data)).map lowerChar⟩ : String) = ""
    rw [show ((some s).getD "") = s from rfl, pyStrip_allSpace hs]
    rfl

/-- Witness for C10_empty_names_dropped: the named item `itH` survives
dedup, and indeed its key is non-empty; the whitespace-named `itWS` has
an empty key. -/
theorem C10_empty_names_dropped_witness :
    normKey itH.name ≠ "" ∧ normKey itWS.name = "" :=
  ⟨C10_empty_names_dropped.1 [itH] itH (by decide),
   C10_empty_names_dropped.2.2 " " (by decide)⟩

/-! ## C1: day invariants (cap 4, distinct keys) -/

/-- C1 counterexample: a planner-produced day `[A(sight), B(history)]`
with interest `food` and a food pool containing another POI named `A`.
The food-repair step appends the pool's `A` without re-checking dedup
keys, so the final plan has a day with two items sharing key `"a"` —
the claim's pairwise-distinctness fails on a produced plan. -/
theorem C1_counterexample :
    Except.map (fun p => p.days.all dayClaimOK)
      (build_plan wiki0 oracle1 ["2025-09-01"] ["food"] [] [("food", [itA_food])]) =
    .ok false := by decide

/-- C1 (amended): every day of every successfully produced plan has at
most 4 items; the pairwise-distinct-key half of the claim is refuted by
`C1_counterexample` (items appended by the food repair, the fallback
cross-pool pulls and the coverage enforcer are not re-deduplicated). -/
theorem C1_amended_cap (wiki : String → String)
    (oracle : Nat → String → List Item → Option Day)
    (dates interests : List String) (wiki_sights : List Item) (by_interest : Pools) (p : Plan)
    (h : build_plan wiki oracle dates interests wiki_sights by_interest = .ok p) :
    ∀ d ∈ p.days, d.items.length ≤ 4 := by
  simp only [build_plan] at h
  cases hB : buildLoop wiki oracle interests dates 0 [] (initialPools by_interest)
      (initialSights wiki_sights) with
  | error e => rw [hB] at h; exact absurd h (by simp)
  | ok st =>
    rw [hB] at h
    simp only [Except.ok.injEq] at h
    subst h
    have hdays : ∀ d ∈ st.1, d.items.length ≤ 4 :=
      buildLoop_len wiki oracle interests dates 0 [] (initialPools by_interest)
        (initialSights wiki_sights) st (by simp) hB
    simp only [enforce_global_coverage]
    split
    · exact hdays
    · exact coverGo_len wiki _ st.1 st.2.1 hdays

/-- A concrete day of a concrete all-fallback run. -/
def dayW : Day := { date := "2025-09-01", items := [] }

/-- The plan produced by `build_plan` on one date with no interests and
no POIs: one empty fallback day, default totals. -/
def planW : Plan := { days := [dayW], totals := { cost_low := 50, cost_high := 120 } }

/-- Witness for C1_amended_cap at a concrete one-day run. -/
theorem C1_amended_cap_witness : dayW.items.length ≤ 4 :=
  C1_amended_cap wiki0 oracleNone ["2025-09-01"] [] [] [] planW (by decide) dayW (by decide)

/-! ## C3 and C5: the broken tuple assignment in the diversity repair -/

/-- C3: the diversity-repair branch that pulls from a non-empty interest
pool does NOT complete normally: the 3-into-2 tuple unpacking raises
`ValueError`, and because `build_plan` does not guard the Day Assembler,
the exception aborts the whole run (here: a planner day with zero
categories, interest `history` with a non-empty pool). -/
theorem C3_diversity_raises :
    enforce_daily_mix wiki0 { date := "2025-09-01", items := [] } ["history"]
      [("history", [itH])] [] = .error unpackErr ∧
    build_plan wiki0 oracleEmpty ["2025-09-01"] ["history"] [] [("history", [itH])] =
      .error unpackErr := by decide

/-- C5: pulling from the `food` pool in the diversity repair raises
`ValueError` instead of slotting 11:00–13:00 (same for any other
interest pool instead of 09:00–11:00); only the generic sights top-up is
reachable and correctly slotted 14:00–16:00. -/
theorem C5_repair_slots :
    enforce_daily_mix wiki0 { date := "2025-09-01", items := [] } ["food"]
      [("food", [itA_food])] [] = .error unpackErr ∧
    enforce_daily_mix wiki0 { date := "2025-09-01", items := [] } ["history"] [] [itS] =
      .ok ({ date := "2025-09-01",
             items := [{ itS with
                         start := some "14:00"
                         end_ := some "16:00"
                         blurb := some "w" }] }, [], []) := by decide

end VoyageCraft

namespace VoyageCraft

/-! ## C8: all-fallback runs still produce a well-formed plan -/

lemma injectFirst_dates {it : Item} : ∀ {days days2 : List Day},
    injectFirst it days = some days2 →
    days2.map (fun d => d.date) = days.map (fun d => d.date) := by
  intro days
  induction days with
  | nil => intro days2 h; simp [injectFirst] at h
  | cons d rest ih =>
    intro days2 h
    simp only [injectFirst] at h
    by_cases hc : d.items.length < 4
    · rw [if_pos hc] at h
      injection h with h2
      subst h2
      simp
    · rw [if_neg hc] at h
      cases hR : injectFirst it rest with
      | none => rw [hR] at h; simp at h
      | some tl2 =>
        rw [hR] at h
        simp at h
        subst h
        simp [ih hR]

lemma coverGo_dates (wiki : String → String) (ms : List String) :
    ∀ (days : List Day) (pools : Pools),
      (coverGo wiki ms days pools).1.map (fun d => d.date) = days.map (fun d => d.date) := by
  induction ms with
  | nil => intro days pools; simp [coverGo]
  | cons miss rest ih =>
    intro days pools
    cases hP : getPool pools miss with
    | nil => rw [coverGo_nil wiki miss rest days pools hP]; exact ih days pools
    | cons it tl =>
      cases hI : injectFirst (slotCov wiki miss it) days with
      | none => rw [coverGo_nocap wiki miss rest days pools it tl hP hI]; exact ih days pools
      | some days2 =>
        rw [coverGo_inject wiki miss rest days pools it tl days2 hP hI]
        rw [ih days2 _]
        exact injectFirst_dates hI

lemma enforce_global_coverage_dates (wiki : String → String) (days : List Day)
    (interests : List String) (pools : Pools) (sights : List Item) :
    (enforce_global_coverage wiki days interests pools sights).1.map (fun d => d.date) =
      days.map (fun d => d.date) := by
  simp only [enforce_global_coverage]
  split
  · rfl
  · exact coverGo_dates wiki _ days pools

/-- With a planner that fails on every call, the per-date loop appends
exactly one fallback day per date, in order. -/
lemma buildLoop_allfail (wiki : String → String)
    (oracle : Nat → String → List Item → Option Day) (interests : List String)
    (hfail : ∀ i d c, oracle i d c = none) (dates : List String) :
    ∀ (i : Nat) (acc : List Day) (pools : Pools) (sights : List Item),
      ∃ st : List Day × Pools × List Item,
        buildLoop wiki oracle interests dates i acc pools sights = .ok st ∧
        st.1.map (fun d => d.date) = acc.map (fun d => d.date) ++ dates := by
  induction dates with
  | nil =>
    intro i acc pools sights
    refine ⟨(acc, pools, sights), ?_, ?_⟩
    · simp [buildLoop]
    · simp
  | cons d rest ih =>
    intro i acc pools sights
    rw [buildLoop_none wiki oracle interests d rest i acc pools sights (hfail _ _ _)]
    obtain ⟨st, h1, h2⟩ := ih (i + 1) _ _ _
    refine ⟨st, h1, ?_⟩
    rw [h2]
    simp

/-- C8: when the planner fails for every day, `build_plan` still returns
a well-formed plan: its days carry exactly the requested dates in order,
and its totals are 50·numDays / 120·numDays. -/
theorem C8_fallback_plan (wiki : String → String)
    (oracle : Nat → String → List Item → Option Day)
    (dates interests : List String) (wiki_sights : List Item) (by_interest : Pools)
    (hfail : ∀ i d c, oracle i d c = none) :
    Except.map (fun p => (p.days.map (fun d => d.date), p.totals))
      (build_plan wiki oracle dates interests wiki_sights by_interest) =
    .ok (dates, { cost_low := 50 * dates.length, cost_high := 120 * dates.length }) := by
  obtain ⟨st, hB, hdates⟩ := buildLoop_allfail wiki oracle interests hfail dates 0 []
    (initialPools by_interest) (initialSights wiki_sights)
  simp only [List.map_nil, List.nil_append] at hdates
  simp only [build_plan, hB, Except.map]
  have hcov := enforce_global_coverage_dates wiki st.1 interests st.2.1 st.2.2
  have hlen : (enforce_global_coverage wiki st.1 interests st.2.1 st.2.2).1.length =
      dates.length := by
    have := congrArg List.length (hcov.trans hdates)
    simpa using this
  simp only [Except.ok.injEq, Prod.mk.injEq]
  exact ⟨hcov.trans hdates, by rw [hlen]⟩

/-- Witness for C8_fallback_plan: a one-day run with no interests. -/
theorem C8_fallback_plan_witness :
    Except.map (fun p => (p.days.map (fun d => d.date), p.totals))
      (build_plan wiki0 oracleNone ["2025-09-01"] [] [] []) =
    .ok (["2025-09-01"], { cost_low := 50, cost_high := 120 }) :=
  C8_fallback_plan wiki0 oracleNone ["2025-09-01"] [] [] [] (fun _ _ _ => rfl)

end VoyageCraft

namespace VoyageCraft

/-! ## C4: coverage-enforcer lemmas -/

/-- Interest `i` appears among the categories of some day's items. -/
def appearsIn (days : List Day) (i : String) : Prop :=
  ∃ d ∈ days, ∃ it ∈ d.items, catKey it = i

/-- Coverage slotting touches only start/end/blurb, never the category. -/
lemma slotCov_catKey (wiki : String → String) (m : String) (x : Item) :
    catKey (slotCov wiki m x) = catKey x := by
  unfold slotCov catKey
  split <;> rfl

lemma getPool_setPool_ne (pools : Pools) (k : String) (v : List Item) (i : String)
    (h : k ≠ i) : getPool (setPool pools k v) i = getPool pools i := by
  induction pools with
  | nil => rfl
  | cons kv rest ih =>
    show getPool ((if kv.1 == k then (k, v) else kv) :: setPool rest k v) i = _
    by_cases hk : kv.1 == k
    · have hkk : kv.1 = k := by simpa using hk
      rw [if_pos hk]
      have h1 : ((k, v).1 == i) = false := by simpa using h
      have h2 : (kv.1 == i) = false := by simp [hkk]; exact h
      simp only [getPool, List.find?]
      rw [h1, h2]
      exact ih
    · rw [if_neg hk]
      by_cases hi : kv.1 == i
      · simp only [getPool, List.find?]
        rw [hi]
      · simp only [getPool, List.find?]
        rw [Bool.not_eq_true] at hi
        rw [hi]
        exact ih

lemma getPool_setPool_self (pools : Pools) (i : String) (v : List Item)
    (h : getPool pools i ≠ []) : getPool (setPool pools i v) i = v := by
  induction pools with
  | nil => exact absurd rfl h
  | cons kv rest ih =>
    show getPool ((if kv.1 == i then (i, v) else kv) :: setPool rest i v) i = _
    by_cases hk : kv.1 == i
    · rw [if_pos hk]
      simp only [getPool, List.find?]
      rw [show ((i, v).1 == i) = true by simp]
    · rw [if_neg hk]
      rw [Bool.not_eq_true] at hk
      simp only [getPool, List.find?]
      rw [hk]
      apply ih
      simp only [getPool, List.find?] at h
      rw [hk] at h
      exact h

/-- The injected item lands in one of the returned days. -/
lemma injectFirst_mem {it : Item} : ∀ {days days2 : List Day},
    injectFirst it days = some days2 → ∃ d ∈ days2, it ∈ d.items := by
  intro days
  induction days with
  | nil => intro days2 h; simp [injectFirst] at h
  | cons d rest ih =>
    intro days2 h
    simp only [injectFirst] at h
    by_cases hc : d.items.length < 4
    · rw [if_pos hc] at h
      injection h with h2
      subst h2
      exact ⟨_, List.mem_cons_self _ _, List.mem_append_right _ (List.mem_singleton.2 rfl)⟩
    · rw [if_neg hc] at h
      cases hR : injectFirst it rest with
      | none => rw [hR] at h; simp at h
      | some tl2 =>
        rw [hR] at h
        simp at h
        subst h
        obtain ⟨d2, hd2, hmem⟩ := ih hR
        exact ⟨d2, List.mem_cons_of_mem _ hd2, hmem⟩

/-- Injection never removes items, so category appearance is monotone. -/
lemma injectFirst_mono {it : Item} {i : String} : ∀ {days days2 : List Day},
    injectFirst it days = some days2 → appearsIn days i → appearsIn days2 i := by
  intro days
  induction days with
  | nil => intro days2 h; simp [injectFirst] at h
  | cons d rest ih =>
    intro days2 h happ
    simp only [injectFirst] at h
    obtain ⟨d0, hd0, it0, hit0, hcat⟩ := happ
    by_cases hc : d.items.length < 4
    · rw [if_pos hc] at h
      injection h with h2
      subst h2
      rcases List.mem_cons.1 hd0 with rfl | hmem
      · exact ⟨_, List.mem_cons_self _ _, it0, List.mem_append_left _ hit0, hcat⟩
      · exact ⟨d0, List.mem_cons_of_mem _ hmem, it0, hit0, hcat⟩
    · rw [if_neg hc] at h
      cases hR : injectFirst it rest with
      | none => rw [hR] at h; simp at h
      | some tl2 =>
        rw [hR] at h
        simp at h
        subst h
        rcases List.mem_cons.1 hd0 with rfl | hmem
        · exact ⟨d0, List.mem_cons_self _ _, it0, hit0, hcat⟩
        · obtain ⟨d2, hd2, it2, hit2, hcat2⟩ := ih hR ⟨d0, hmem, it0, hit0, hcat⟩
          exact ⟨d2, List.mem_cons_of_mem _ hd2, it2, hit2, hcat2⟩

/-- When every day is full, injection fails. -/
lemma injectFirst_of_full {it : Item} : ∀ {days : List Day},
    (∀ d ∈ days, ¬ d.items.length < 4) → injectFirst it days = none := by
  intro days
  induction days with
  | nil => intro _; rfl
  | cons d rest ih =>
    intro h
    simp only [injectFirst]
    rw [if_neg (h d (List.mem_cons_self _ _))]
    rw [ih (fun x hx => h x (List.mem_cons_of_mem _ hx))]
    rfl

/-- Failed injection means every day is full. -/
lemma full_of_injectFirst_none {it : Item} : ∀ {days : List Day},
    injectFirst it days = none → ∀ d ∈ days, 4 ≤ d.items.length := by
  intro days
  induction days with
  | nil => intro _ d hd; simp at hd
  | cons d rest ih =>
    intro h d2 hd2
    simp only [injectFirst] at h
    by_cases hc : d.items.length < 4
    · rw [if_pos hc] at h; simp at h
    · rw [if_neg hc] at h
      rcases List.mem_cons.1 hd2 with rfl | hmem
      · omega
      · cases hR : injectFirst it rest with
        | none => exact ih hR d2 hmem
        | some tl2 => rw [hR] at h; simp at h

end VoyageCraft

namespace VoyageCraft

/-- Category appearance is monotone through the whole enforcer loop. -/
lemma coverGo_mono (wiki : String → String) {i : String} (ms : List String) :
    ∀ (days : List Day) (pools : Pools),
      appearsIn days i → appearsIn (coverGo wiki ms days pools).1 i := by
  induction ms with
  | nil => intro days pools h; simpa [coverGo] using h
  | cons miss rest ih =>
    intro days pools h
    cases hP : getPool pools miss with
    | nil => rw [coverGo_nil wiki miss rest days pools hP]; exact ih days pools h
    | cons it tl =>
      cases hI : injectFirst (slotCov wiki miss it) days with
      | none => rw [coverGo_nocap wiki miss rest days pools it tl hP hI]; exact ih days pools h
      | some days2 =>
        rw [coverGo_inject wiki miss rest days pools it tl days2 hP hI]
        exact ih days2 _ (injectFirst_mono hI h)

/-- A pool that is empty when the enforcer starts is still empty when it
finishes (pools are only ever popped). -/
lemma coverGo_pool_empty (wiki : String → String) {i : String} (ms : List String) :
    ∀ (days : List Day) (pools : Pools),
      getPool pools i = [] → getPool (coverGo wiki ms days pools).2 i = [] := by
  induction ms with
  | nil => intro days pools h; simpa [coverGo] using h
  | cons miss rest ih =>
    intro days pools h
    cases hP : getPool pools miss with
    | nil => rw [coverGo_nil wiki miss rest days pools hP]; exact ih days pools h
    | cons it tl =>
      cases hI : injectFirst (slotCov wiki miss it) days with
      | none => rw [coverGo_nocap wiki miss rest days pools it tl hP hI]; exact ih days pools h
      | some days2 =>
        rw [coverGo_inject wiki miss rest days pools it tl days2 hP hI]
        apply ih
        have hne : miss ≠ i := by
          intro heq
          rw [heq, h] at hP
          exact List.noConfusion hP
        rw [getPool_setPool_ne pools miss tl i hne]
        exact h

/-- Once every day is full the enforcer changes nothing. -/
lemma coverGo_full (wiki : String → String) (ms : List String) :
    ∀ (days : List Day) (pools : Pools),
      (∀ d ∈ days, ¬ d.items.length < 4) → (coverGo wiki ms days pools).1 = days := by
  induction ms with
  | nil => intro days pools _; simp [coverGo]
  | cons miss rest ih =>
    intro days pools h
    cases hP : getPool pools miss with
    | nil => rw [coverGo_nil wiki miss rest days pools hP]; exact ih days pools h
    | cons it tl =>
      rw [coverGo_nocap wiki miss rest days pools it tl hP (injectFirst_of_full h)]
      exact ih days pools h

/-- Core induction for the amended coverage claim: an interest that is
still scheduled (or already appears) ends up appearing, or its pool is
exhausted, or every day of the result is full. -/
lemma coverGo_covers (wiki : String → String) (i : String) (ms : List String) :
    ∀ (days : List Day) (pools : Pools),
      (∀ it ∈ getPool pools i, catKey it = i) →
      (i ∈ ms ∨ appearsIn days i) →
      appearsIn (coverGo wiki ms days pools).1 i ∨
      getPool (coverGo wiki ms days pools).2 i = [] ∨
      (∀ d ∈ (coverGo wiki ms days pools).1, 4 ≤ d.items.length) := by
  induction ms with
  | nil =>
    intro days pools _ h
    rcases h with h | h
    · simp at h
    · exact Or.inl (by simpa [coverGo] using h)
  | cons miss rest ih =>
    intro days pools hpool h
    rcases h with hms | happ
    · rcases List.mem_cons.1 hms with rfl | hrest
      · -- the enforcer reaches interest i itself
        cases hP : getPool pools i with
        | nil =>
          rw [coverGo_nil wiki i rest days pools hP]
          exact Or.inr (Or.inl (coverGo_pool_empty wiki rest days pools hP))
        | cons it tl =>
          cases hI : injectFirst (slotCov wiki i it) days with
          | none =>
            rw [coverGo_nocap wiki i rest days pools it tl hP hI]
            have hfull := full_of_injectFirst_none hI
            refine Or.inr (Or.inr ?_)
            rw [coverGo_full wiki rest days pools (fun d hd => by have := hfull d hd; omega)]
            exact hfull
          | some days2 =>
            rw [coverGo_inject wiki i rest days pools it tl days2 hP hI]
            have hcat : catKey (slotCov wiki i it) = i := by
              rw [slotCov_catKey]
              exact hpool it (hP ▸ List.mem_cons_self _ _)
            have happ2 : appearsIn days2 i := by
              obtain ⟨d2, hd2, hmem⟩ := injectFirst_mem hI
              exact ⟨d2, hd2, _, hmem, hcat⟩
            refine ih days2 _ ?_ (Or.inr happ2)
            rw [getPool_setPool_self pools i tl (by rw [hP]; exact List.noConfusion)]
            intro it2 hit2
            exact hpool it2 (hP ▸ List.mem_cons_of_mem _ hit2)
      · -- a different missing interest is handled first
        cases hP : getPool pools miss with
        | nil =>
          rw [coverGo_nil wiki miss rest days pools hP]
          exact ih days pools hpool (Or.inl hrest)
        | cons it tl =>
          cases hI : injectFirst (slotCov wiki miss it) days with
          | none =>
            rw [coverGo_nocap wiki miss rest days pools it tl hP hI]
            exact ih days pools hpool (Or.inl hrest)
          | some days2 =>
            rw [coverGo_inject wiki miss rest days pools it tl days2 hP hI]
            by_cases hmi : miss = i
            · subst hmi
              refine ih days2 _ ?_ (Or.inl hrest)
              rw [getPool_setPool_self pools miss tl (by rw [hP]; exact List.noConfusion)]
              intro it2 hit2
              exact hpool it2 (hP ▸ List.mem_cons_of_mem _ hit2)
            · refine ih days2 _ ?_ (Or.inl hrest)
              rw [getPool_setPool_ne pools miss tl i hmi]
              exact hpool
    · -- i already appears before the loop runs
      cases hP : getPool pools miss with
      | nil =>
        rw [coverGo_nil wiki miss rest days pools hP]
        exact ih days pools hpool (Or.inr happ)
      | cons it tl =>
        cases hI : injectFirst (slotCov wiki miss it) days with
        | none =>
          rw [coverGo_nocap wiki miss rest days pools it tl hP hI]
          exact ih days pools hpool (Or.inr happ)
        | some days2 =>
          rw [coverGo_inject wiki miss rest days pools it tl days2 hP hI]
          by_cases hmi : miss = i
          · subst hmi
            refine ih days2 _ ?_ (Or.inr (injectFirst_mono hI happ))
            rw [getPool_setPool_self pools miss tl (by rw [hP]; exact List.noConfusion)]
            intro it2 hit2
            exact hpool it2 (hP ▸ List.mem_cons_of_mem _ hit2)
          · refine ih days2 _ ?_ (Or.inr (injectFirst_mono hI happ))
            rw [getPool_setPool_ne pools miss tl i hmi]
            exact hpool

end VoyageCraft

namespace VoyageCraft

lemma mem_catSet {items : List Item} {x : String} :
    x ∈ catSet items ↔ ∃ it ∈ items, catKey it = x := by
  simp [catSet, List.mem_dedup, List.mem_map]

lemma mem_haveFold (days : List Day) : ∀ (init : List String) (x : String),
    x ∈ days.foldl (fun acc d => acc ++ catSet d.items) init ↔
      x ∈ init ∨ appearsIn days x := by
  induction days with
  | nil =>
    intro init x
    simp [appearsIn]
  | cons d rest ih =>
    intro init x
    show x ∈ rest.foldl (fun acc d => acc ++ catSet d.items) (init ++ catSet d.items) ↔ _
    rw [ih]
    constructor
    · rintro (hmem | happ)
      · rcases List.mem_append.1 hmem with h | h
        · exact Or.inl h
        · obtain ⟨it, hit, hcat⟩ := mem_catSet.1 h
          exact Or.inr ⟨d, List.mem_cons_self _ _, it, hit, hcat⟩
      · obtain ⟨d2, hd2, it, hit, hcat⟩ := happ
        exact Or.inr ⟨d2, List.mem_cons_of_mem _ hd2, it, hit, hcat⟩
    · rintro (hmem | ⟨d2, hd2, it, hit, hcat⟩)
      · exact Or.inl (List.mem_append_left _ hmem)
      · rcases List.mem_cons.1 hd2 with rfl | hmem2
        · exact Or.inl (List.mem_append_right _ (mem_catSet.2 ⟨it, hit, hcat⟩))
        · exact Or.inr ⟨d2, hmem2, it, hit, hcat⟩

/-- C4 (amended): after the Coverage Enforcer, every requested interest
whose pool items do carry that interest as category either appears in
some day's categories, or its pool is empty, or every day of the result
is full (4 items) — the last escape hatch is exactly what the
counterexample exploits. -/
theorem C4_coverage_amended (wiki : String → String) (days : List Day)
    (interests : List String) (pools : Pools) (sights : List Item) (i : String)
    (hi : i ∈ interests)
    (hpool : ∀ it ∈ getPool pools i, catKey it = i) :
    appearsIn (enforce_global_coverage wiki days interests pools sights).1 i ∨
    getPool (enforce_global_coverage wiki days interests pools sights).2 i = [] ∨
    ∀ d ∈ (enforce_global_coverage wiki days interests pools sights).1,
      4 ≤ d.items.length := by
  simp only [enforce_global_coverage]
  split
  · -- no missing interest: i is already covered
    next hm =>
    refine Or.inl ?_
    have hp := (List.filter_eq_nil.1 hm) i hi
    simp only [decide_eq_true_eq, not_not] at hp
    have hcontains : i ∈ days.foldl (fun acc d => acc ++ catSet d.items) [] := by
      simpa using hp
    have := (mem_haveFold days [] i).1 hcontains
    simpa using this
  · -- run the injection loop
    apply coverGo_covers wiki i _ days pools hpool
    by_cases hc : i ∈ days.foldl (fun acc d => acc ++ catSet d.items) []
    · exact Or.inr (by simpa using (mem_haveFold days [] i).1 hc)
    · refine Or.inl (List.mem_filter.2 ⟨hi, ?_⟩)
      simp only [decide_eq_true_eq]
      simpa using hc

end VoyageCraft

namespace VoyageCraft

/-- C4 counterexample: one requested date, interest `history` with a
non-empty pool at run start, and a planner day that is already full
(4 items, categories sight/nature).  The coverage enforcer finds no day
with spare capacity, so `history` never appears in the final plan —
refuting the claim as stated. -/
theorem C4_counterexample :
    getPool (initialPools [("history", [itH])]) "history" ≠ [] ∧
    Except.map (fun p => p.days.any (fun d => d.items.any (fun it => catKey it == "history")))
      (build_plan wiki0 oracle4 ["2025-09-01"] ["history"] [] [("history", [itH])]) =
    .ok false := by decide

/-- Witness for C4_coverage_amended at a one-empty-day itinerary with a
non-empty history pool. -/
theorem C4_coverage_amended_witness :
    appearsIn (enforce_global_coverage wiki0 [dayW] ["history"] [("history", [itH])] []).1
      "history" ∨
    getPool (enforce_global_coverage wiki0 [dayW] ["history"] [("history", [itH])] []).2
      "history" = [] ∨
    ∀ d ∈ (enforce_global_coverage wiki0 [dayW] ["history"] [("history", [itH])] []).1,
      4 ≤ d.items.length :=
  C4_coverage_amended wiki0 [dayW] ["history"] [("history", [itH])] [] "history"
    (by decide) (by decide)

end VoyageCraft

namespace VoyageCraft

/-! ## C6: the Distance/Diversity Scorer -/

/-- The haversine distance between two copies of the same coordinates is
exactly 0 (all angle differences vanish). -/
lemma haversine_same (lat lon : ℝ) (c1 c2 : Option String) :
    _haversine_km { lat := some lat, lon := some lon, category := c1 }
      { lat := some lat, lon := some lon, category := c2 } = 0 := by
  simp only [_haversine_km]
  rw [sub_self]
  norm_num [radians, Real.sin_zero, Real.sqrt_zero, Real.arcsin_zero]

def p1 : SItem := { lat := some 0, lon := some 0, category := some "sight" }

def p2 : SItem := { lat := some 0, lon := some 0, category := none }

/-- C6 counterexample: the code defaults a missing category to "other"
(`x.get("category", "other")`), not "sight" as the claim states.  On two
identical points, one categorised "sight" and one uncategorised, the
code counts 2 distinct categories and scores 11.0, while the claim's
formula counts 1 and predicts 10.5. -/
theorem C6_counterexample :
    score_day [p1, p2] = 11 ∧ score_day_spec [p1, p2] = 21 / 2 ∧
    score_day [p1, p2] ≠ score_day_spec [p1, p2] := by
  have hwalk : _haversine_km p1 p2 = 0 := haversine_same 0 0 (some "sight") none
  have hcats : (([p1, p2].map (fun it => it.category.getD "other")).dedup).length = 2 := by
    decide
  have hcats2 : (([p1, p2].map (fun it => it.category.getD "sight")).dedup).length = 1 := by
    decide
  have h1 : score_day [p1, p2] = 11 := by
    simp only [score_day, hcats]
    simp only [List.tail_cons, List.zip_cons_cons, List.zip_nil_right, List.map_cons,
      List.map_nil, List.sum_cons, List.sum_nil, hwalk]
    norm_num [round2]
  have h2 : score_day_spec [p1, p2] = 21 / 2 := by
    simp only [score_day_spec, hcats2]
    simp only [List.tail_cons, List.zip_cons_cons, List.zip_nil_right, List.map_cons,
      List.map_nil, List.sum_cons, List.sum_nil, hwalk]
    norm_num [round2]
  exact ⟨h1, h2, by rw [h1, h2]; norm_num⟩

/-- C6 (amended): the score of the empty list is 0, and — with the
code's actual default "other" — two identical points sharing one
category score `max(0, 10 − 0) + 0.5·1 = 10.5` for any coordinates. -/
theorem C6_score_amended (lat lon : ℝ) (c : String) :
    score_day [] = 0 ∧
    score_day [{ lat := some lat, lon := some lon, category := some c },
               { lat := some lat, lon := some lon, category := some c }] = 21 / 2 := by
  constructor
  · rfl
  · have hwalk := haversine_same lat lon (some c) (some c)
    have hcats : ((([{ lat := some lat, lon := some lon, category := some c },
        { lat := some lat, lon := some lon, category := some c }] : List SItem).map
          (fun it => it.category.getD "other")).dedup).length = 1 := by
      show ((([some c, some c].map (fun o => o.getD "other")).dedup).length) = 1
      simp
    simp only [score_day, hcats]
    simp only [List.tail_cons, List.zip_cons_cons, List.zip_nil_right, List.map_cons,
      List.map_nil, List.sum_cons, List.sum_nil, hwalk]
    norm_num [round2]

end VoyageCraft

namespace VoyageCraft

/-! ## C7: date_range -/

/-- C7 counterexample: on a malformed bound, `date.fromisoformat` raises
`ValueError`, which `date_range` does not catch — the call errors
instead of returning the empty list the claim promises. -/
theorem C7_counterexample :
    date_range "garbage" "2025-08-20" = .error "ValueError: Invalid isoformat string" ∧
    date_range "garbage" "2025-08-20" ≠ .ok [] := by decide

set_option maxRecDepth 100000 in
/-- C7 (amended): for well-formed bounds `date_range` returns the
inclusive ISO day list (empty when the end precedes the start); a
malformed bound raises `ValueError` (modelled as an error) rather than
yielding the empty list. -/
theorem C7_date_range_amended :
    date_range "2025-08-20" "2025-08-22" = .ok ["2025-08-20", "2025-08-21", "2025-08-22"] ∧
    date_range "2025-08-22" "2025-08-20" = .ok [] ∧
    (∀ s e ps pe, date_fromisoformat s = some ps → date_fromisoformat e = some pe →
      toOrdinal pe.1 pe.2.1 pe.2.2 < toOrdinal ps.1 ps.2.1 ps.2.2 →
      date_range s e = .ok []) ∧
    (∀ s e, (date_fromisoformat s = none ∨ date_fromisoformat e = none) →
      date_range s e = .error "ValueError: Invalid isoformat string") := by
  refine ⟨by decide, by decide, ?_, ?_⟩
  · intro s e ps pe hs he hlt
    simp only [date_range, hs, he]
    rw [dateLoop, show toOrdinal pe.1 pe.2.1 pe.2.2 + 1 - toOrdinal ps.1 ps.2.1 ps.2.2 = 0
      from by omega]
    rfl
  · intro s e h
    rcases h with h | h
    · simp [date_range, h]
    · cases hs : date_fromisoformat s with
      | none => simp [date_range, hs]
      | some ps => simp [date_range, hs, h]

/-- Witness for C7_date_range_amended: the reversed bounds give the
empty list via the general clause. -/
theorem C7_date_range_amended_witness : date_range "2025-08-22" "2025-08-20" = .ok [] :=
  C7_date_range_amended.2.2.1 "2025-08-22" "2025-08-20" (2025, 8, 22) (2025, 8, 20)
    (by decide) (by decide) (by decide)

end VoyageCraft

namespace VoyageCraft

/-- Witness for C6_score_amended at the origin with category "x". -/
theorem C6_score_amended_witness :
    score_day [] = 0 ∧
    score_day [{ lat := some 0, lon := some 0, category := some "x" },
               { lat := some 0, lon := some 0, category := some "x" }] = 21 / 2 :=
  C6_score_amended 0 0 "x"

end VoyageCraft
